import Mathlib

/-!
Verification development for the iboss-agency-scraper repository.

The SQLite tables of `Database` (src/scraper/iboss_scraper.py, lines 29-78)
are embedded as lists of row structures; each `Database` method becomes a
pure function on the `DB` state.  The browser-driven parts of `IBossScraper`
are embedded with the DOM-extraction outcomes (selector results, page loads,
pagination outcomes) as explicit inputs, while the control flow (skip /
sentinel decisions, cap checks, pagination loop, fault handling) is
translated from the source.

Conventions:
* SQLite `AUTOINCREMENT` surrogate ids are `Nat` starting at 1.
* `CURRENT_TIMESTAMP` is an abstract clock value passed as `now : Nat`
  where a claim depends on it; the `last_updated` columns, which no claim
  mentions, are omitted from the row structures.
* Python `None` / SQL `NULL` is `Option.none`.
* The regex class `\d` and Python `\s` are modelled over their ASCII
  ranges, which is what the scraped hrefs and page text exercise.
-/

namespace IBoss

/-- Row of the `categories` table (iboss_scraper.py lines 33-42).
`last_updated` omitted (no claim mentions it). -/
structure CategoryRow where
  id : Nat
  category_name : String
  category_link : String
  agency_count : String
  scraped : Bool
deriving DecidableEq

/-- Row of the `agencies` table (iboss_scraper.py lines 45-62). -/
structure AgencyRow where
  id : Nat
  category_id : Nat
  category_name : String
  agency_name : String
  agency_url : Option String
  agency_logo : Option String
  local_logo_path : Option String
  agency_desc : Option String
  agency_idx : Option String
  agency_detail_url : Option String
  agency_detail_desc : Option String
  detailed_scraped : Bool
deriving DecidableEq

/-- Row of the `scraping_status` table (iboss_scraper.py lines 65-78). -/
structure SessionRow where
  id : Nat
  session_start : Nat
  session_end : Option Nat
  categories_total : Nat
  categories_scraped : Nat
  agencies_total : Nat
  agencies_scraped : Nat
  details_total : Nat
  details_scraped : Nat
  status : Option String
deriving DecidableEq

/-- The SQLite database state: the three tables plus the next AUTOINCREMENT
value for each. -/
structure DB where
  categories : List CategoryRow
  agencies : List AgencyRow
  sessions : List SessionRow
  next_category_id : Nat
  next_agency_id : Nat
  next_session_id : Nat
deriving DecidableEq

/-- A freshly created database (`_create_tables` on a new file):
empty tables, AUTOINCREMENT counters at 1. -/
def emptyDB : DB :=
  { categories := []
    agencies := []
    sessions := []
    next_category_id := 1
    next_agency_id := 1
    next_session_id := 1 }

/-- `Database.insert_category` (iboss_scraper.py lines 82-108): look up by
`category_name`; if present update `category_link` and `agency_count` of the
row with the found id, returning the existing id; otherwise insert a fresh
row (with `scraped` at its SQL default 0) and return the new id. -/
def insert_category (db : DB) (category_name category_link agency_count : String) :
    Nat × DB :=
  match db.categories.find? (fun r => r.category_name == category_name) with
  | some existing =>
      (existing.id,
        { db with categories := db.categories.map (fun r =>
            if r.id = existing.id then
              { r with category_link := category_link, agency_count := agency_count }
            else r) })
  | none =>
      (db.next_category_id,
        { db with
          categories := db.categories ++
            [{ id := db.next_category_id, category_name := category_name,
               category_link := category_link, agency_count := agency_count,
               scraped := false }],
          next_category_id := db.next_category_id + 1 })

/-- `Database.insert_agency` (iboss_scraper.py lines 110-136): look up by
`(category_id, agency_name)`; if present update `agency_url, agency_logo,
local_logo_path, agency_desc, agency_idx, agency_detail_url` on the row with
the found id (leaving `agency_detail_desc` and `detailed_scraped` alone) and
return the existing id; otherwise insert a fresh row and return the new id. -/
def insert_agency (db : DB) (category_id : Nat) (category_name agency_name : String)
    (agency_url agency_logo agency_desc agency_idx agency_detail_url
     local_logo_path : Option String) : Nat × DB :=
  match db.agencies.find?
      (fun r => r.category_id == category_id && r.agency_name == agency_name) with
  | some existing =>
      (existing.id,
        { db with agencies := db.agencies.map (fun r =>
            if r.id = existing.id then
              { r with agency_url := agency_url, agency_logo := agency_logo,
                       local_logo_path := local_logo_path, agency_desc := agency_desc,
                       agency_idx := agency_idx, agency_detail_url := agency_detail_url }
            else r) })
  | none =>
      (db.next_agency_id,
        { db with
          agencies := db.agencies ++
            [{ id := db.next_agency_id, category_id := category_id,
               category_name := category_name, agency_name := agency_name,
               agency_url := agency_url, agency_logo := agency_logo,
               local_logo_path := local_logo_path, agency_desc := agency_desc,
               agency_idx := agency_idx, agency_detail_url := agency_detail_url,
               agency_detail_desc := none, detailed_scraped := false }],
          next_agency_id := db.next_agency_id + 1 })

/-- `Database.update_agency_detail` (iboss_scraper.py lines 138-145): one SQL
UPDATE setting `agency_detail_desc` to the given value and `detailed_scraped`
to 1 on the row with the given id. -/
def update_agency_detail (db : DB) (agency_id : Nat) (detail_desc : Option String) : DB :=
  { db with agencies := db.agencies.map (fun r =>
      if r.id = agency_id then
        { r with agency_detail_desc := detail_desc, detailed_scraped := true }
      else r) }

/-- `Database.get_agencies_without_details` (iboss_scraper.py lines 156-162). -/
def get_agencies_without_details (db : DB) : List AgencyRow :=
  db.agencies.filter (fun r => !r.detailed_scraped)

/-- `Database.mark_category_scraped` (iboss_scraper.py lines 164-171). -/
def mark_category_scraped (db : DB) (category_id : Nat) : DB :=
  { db with categories := db.categories.map (fun r =>
      if r.id = category_id then { r with scraped := true } else r) }

/-- `Database.get_unscraped_categories` (iboss_scraper.py lines 173-179):
`SELECT ... FROM categories WHERE scraped = 0`. -/
def get_unscraped_categories (db : DB) : List CategoryRow :=
  db.categories.filter (fun r => !r.scraped)

/-- `Database.start_scraping_session` (iboss_scraper.py lines 218-225):
INSERT with `session_start` = now, `status` = 'running'; the other columns
take their SQL defaults (counters 0, `session_end` NULL). -/
def start_scraping_session (db : DB) (now : Nat) : Nat × DB :=
  (db.next_session_id,
    { db with
      sessions := db.sessions ++
        [{ id := db.next_session_id, session_start := now, session_end := none,
           categories_total := 0, categories_scraped := 0,
           agencies_total := 0, agencies_scraped := 0,
           details_total := 0, details_scraped := 0,
           status := some "running" }],
      next_session_id := db.next_session_id + 1 })

/-- The per-row effect of the dynamically built UPDATE in
`Database.update_scraping_status` (iboss_scraper.py lines 232-265): each
counter column is SET exactly when its argument is not None (lines 235-257),
`status` is SET when the status argument is not None (lines 259-261), and
`session_end = CURRENT_TIMESTAMP` is appended exactly when the status
argument equals 'completed' (lines 263-264). -/
def update_session_row (now : Nat)
    (categories_total categories_scraped agencies_total agencies_scraped
     details_total details_scraped : Option Nat) (status : Option String)
    (r : SessionRow) : SessionRow :=
  let r := match categories_total with
    | some v => { r with categories_total := v } | none => r
  let r := match categories_scraped with
    | some v => { r with categories_scraped := v } | none => r
  let r := match agencies_total with
    | some v => { r with agencies_total := v } | none => r
  let r := match agencies_scraped with
    | some v => { r with agencies_scraped := v } | none => r
  let r := match details_total with
    | some v => { r with details_total := v } | none => r
  let r := match details_scraped with
    | some v => { r with details_scraped := v } | none => r
  let r := match status with
    | some v => { r with status := some v } | none => r
  if status == some "completed" then { r with session_end := some now } else r

/-- `Database.update_scraping_status` (iboss_scraper.py lines 227-271): if at
least one field was collected (`if update_fields:`, line 266) run the UPDATE
on the row with the given session id; otherwise touch nothing. -/
def update_scraping_status (db : DB) (now : Nat) (session_id : Nat)
    (categories_total categories_scraped agencies_total agencies_scraped
     details_total details_scraped : Option Nat) (status : Option String) : DB :=
  if categories_total.isSome || categories_scraped.isSome || agencies_total.isSome ||
     agencies_scraped.isSome || details_total.isSome || details_scraped.isSome ||
     status.isSome then
    { db with sessions := db.sessions.map (fun r =>
        if r.id = session_id then
          update_session_row now categories_total categories_scraped agencies_total
            agencies_scraped details_total details_scraped status r
        else r) }
  else db

/-! ### idx extraction and detail-URL derivation -/

/-- `self.base_url` (iboss_scraper.py line 344). -/
def base_url : String := "https://www.i-boss.co.kr"

/-- ASCII decimal digit, modelling the regex class `\d`. -/
def isDigitChar (c : Char) : Bool := '0' ≤ c && c ≤ '9'

/-- One attempt of the regex `idx=(\d+)` at the current position: the text
must start with the literal `idx=` followed by at least one digit; the
captured group is the maximal run of digits (greedy `\d+`). -/
def idxMatchAt (l : List Char) : Option (List Char) :=
  if l.take 4 = ['i', 'd', 'x', '='] then
    if ((l.drop 4).takeWhile isDigitChar).isEmpty then none
    else some ((l.drop 4).takeWhile isDigitChar)
  else none

/-- `re.search(r'idx=(\d+)', href)` (iboss_scraper.py line 453): try the
match at each position left to right, return the first capture. -/
def searchIdx : List Char → Option (List Char)
  | [] => none
  | c :: rest =>
      match idxMatchAt (c :: rest) with
      | some ds => some ds
      | none => searchIdx rest

/-- Whether `idx=` occurs as a substring (used to state the no-parameter
case of the claim about `extract_agency_idx`). -/
def hasIdxSub : List Char → Bool
  | [] => false
  | c :: rest => (List.take 4 (c :: rest) == ['i', 'd', 'x', '=']) || hasIdxSub rest

/-- `IBossScraper.extract_agency_idx` (iboss_scraper.py lines 446-459):
`if not href: return None` (None or empty string), then return the capture
of the first `idx=(\d+)` match, or None if there is no match. -/
def extract_agency_idx (href : Option String) : Option String :=
  match href with
  | none => none
  | some h =>
      if h.data.isEmpty then none
      else (searchIdx h.data).map (fun ds => String.mk ds)

/-- The idx / detail-URL derivation at the call site (iboss_scraper.py lines
606-616): both start as None; when the href is truthy the idx is extracted
and, when that succeeded, the detail URL is the fixed template
`f"{self.base_url}/ab-7554-{agency_idx}"` (line 613). -/
def derive_idx_and_detail (href : Option String) : Option String × Option String :=
  (extract_agency_idx href,
   (extract_agency_idx href).map (fun i => base_url ++ "/ab-7554-" ++ i))

/-! ### Whitespace normalization and the detail fetcher -/

/-- ASCII whitespace, modelling the regex class `\s`. -/
def isSpaceChar (c : Char) : Bool :=
  c = ' ' || c = '\t' || c = '\n' || c = '\r' || c = '\x0b' || c = '\x0c'

/-- `re.sub(r'\s+', ' ', s)` (iboss_scraper.py line 924): every maximal run
of whitespace becomes a single space. -/
def collapse_ws : List Char → List Char
  | [] => []
  | [c] => if isSpaceChar c then [' '] else [c]
  | c :: c2 :: rest =>
      if isSpaceChar c && isSpaceChar c2 then collapse_ws (c2 :: rest)
      else (if isSpaceChar c then ' ' else c) :: collapse_ws (c2 :: rest)

/-- Python `str.strip()`: remove leading and trailing whitespace. -/
def strip_ws (l : List Char) : List Char :=
  ((l.dropWhile isSpaceChar).reverse.dropWhile isSpaceChar).reverse

/-- `re.sub(r'\s+', ' ', body_text).strip()` (iboss_scraper.py line 924). -/
def normalize_ws (s : String) : String :=
  String.mk (strip_ws (collapse_ws s.data))

/-- The in-page JavaScript fallback of `get_agency_detail` (iboss_scraper.py
lines 915-926) composed with the Python cleaning: `document.body.textContent`
is the argument (`none` for a null node text); a falsy (null or empty) text
yields null, otherwise the first 1000 characters (`substring(0, 1000)`) are
whitespace-normalized. -/
def body_text_fallback (raw : Option String) : Option String :=
  match raw with
  | none => none
  | some t =>
      if t.isEmpty then none
      else some (normalize_ws (String.mk (t.data.take 1000)))

/-- The description selected by `get_agency_detail` (iboss_scraper.py lines
884-931): the first primary content selector that resolves supplies the text
(`intro`); otherwise the whole-page-text fallback applies; if that is also
null, no description is produced (the function returns None, line 929). -/
def get_agency_detail_desc (intro : Option String) (bodyRaw : Option String) :
    Option String :=
  match intro with
  | some t => some t
  | none => body_text_fallback bodyRaw

/-- `IBossScraper.get_agency_detail` (iboss_scraper.py lines 869-952) as a
store transformer.  Inputs: the agency id, its detail URL (None makes the
function return immediately, lines 871-873), whether navigation succeeded
(checked at line 879 - unlike the listing extractor, this caller honours the
navigator's boolean), the text of the first primary selector that matched
(`none` when all selectors failed) and the raw page body text.  When a
description is obtained, `Database.update_agency_detail` persists it (line
934); otherwise the store is untouched. -/
def get_agency_detail_model (db : DB) (agency_id : Nat) (detail_url : Option String)
    (navOk : Bool) (intro : Option String) (bodyRaw : Option String) :
    DB × Option String :=
  match detail_url with
  | none => (db, none)
  | some _ =>
      if !navOk then (db, none)
      else
        match get_agency_detail_desc intro bodyRaw with
        | none => (db, none)
        | some d => (update_agency_detail db agency_id (some d), some d)

/-! ### Listing extraction (`get_agencies_in_category`) -/

/-- One agency entry on a listing page (`div._list > div`), with each
extraction outcome abstracted as the result of its selector-fallback chain
(iboss_scraper.py lines 563-656):
* `name`: the name chain (lines 563-573) — `none` means every fallback
  failed, triggering the skip at line 571;
* `href`: the detail-link href from the direct element or the JS closest
  anchor (lines 577-604), `none` if not found;
* `url`: the inner text of the external-URL element (lines 619-624),
  `none` if no element was found;
* `logo`: `none` when no img element was found by any fallback; `some src`
  when an element was found and its `src` attribute read as `src`
  (the attribute itself may be null, lines 628-642);
* `desc`: the short-description text (lines 650-655), `none` if no element;
* `downloaded`: the oracle result of `download_logo` (a filesystem and
  network effect), consulted only when a non-sentinel logo URL exists. -/
structure Entry where
  name : Option String
  href : Option String
  url : Option String
  logo : Option (Option String)
  desc : Option String
  downloaded : Option String
deriving DecidableEq

/-- The logo URL after the fallback chain (iboss_scraper.py lines 628-642):
a found element supplies its `src` attribute (possibly null); no element at
all yields the sentinel "N/A". -/
def listing_logo_url (e : Entry) : Option String :=
  match e.logo with
  | none => some "N/A"
  | some src => src

/-- The local logo path (iboss_scraper.py lines 644-647): `download_logo` is
invoked only when the logo URL is truthy and not the sentinel. -/
def listing_local_logo_path (e : Entry) : Option String :=
  match listing_logo_url e with
  | some s => if s != "N/A" && s != "" then e.downloaded else none
  | none => none

/-- Processing of a single listing entry (iboss_scraper.py lines 556-689,
without the cap check, which lives in the page loop): if every name fallback
failed the entry is skipped (`continue`, line 571) and nothing is persisted;
otherwise the remaining fields degrade to sentinels ("N/A") or null and the
entry is persisted through `Database.insert_agency` (line 659).  Returns the
persisted surrogate id (None when skipped) and the new store. -/
def process_entry (db : DB) (category_id : Nat) (category_name : String) (e : Entry) :
    Option Nat × DB :=
  match e.name with
  | none => (none, db)
  | some agency_name =>
      let d := derive_idx_and_detail e.href
      let agency_url := e.url.getD "N/A"
      let description := e.desc.getD "N/A"
      let ins := insert_agency db category_id category_name agency_name
        (some agency_url) (listing_logo_url e) (some description)
        d.1 d.2 (listing_local_logo_path e)
      (some ins.1, ins.2)

/-- Result of processing the entries of one listing page. -/
structure PageResult where
  db : DB
  collected : Nat
  capBreak : Bool
  ids : List Nat
deriving DecidableEq

/-- The inner for-loop of `get_agencies_in_category` (iboss_scraper.py lines
548-694): before each entry the cap is checked (`max > 0 and collected >=
max`, line 551) and on hit the loop breaks with the rest of the page
skipped; otherwise the entry is processed, incrementing the collected count
exactly when it was persisted.  `ids` accumulates the persisted ids (the
code's `agencies_data`). -/
def process_page (category_id : Nat) (category_name : String) (maxA : Nat) :
    List Entry → DB → Nat → PageResult
  | [], db, c => ⟨db, c, false, []⟩
  | e :: rest, db, c =>
      if 0 < maxA ∧ maxA ≤ c then ⟨db, c, true, []⟩
      else
        match process_entry db category_id category_name e with
        | (none, db') => process_page category_id category_name maxA rest db' c
        | (some aid, db') =>
            let r := process_page category_id category_name maxA rest db' (c + 1)
            ⟨r.db, r.collected, r.capBreak, aid :: r.ids⟩

/-- Outcome of the page-advance decision procedure (iboss_scraper.py lines
702-852) for one iteration of the while loop. -/
inductive PagOutcome where
  /-- A next button was found, is not disabled, and was clicked (lines
  832-840): the loop continues on the next page. -/
  | nextPage : PagOutcome
  /-- No pagination control, no links, no next button, or a disabled next
  button: `has_next_page = False` (lines 727-734, 743-746, 841-846). -/
  | lastPage : PagOutcome
  /-- An exception inside the pagination block, caught at lines 848-852:
  `has_next_page = False` and the loop exits normally. -/
  | pagError : PagOutcome
deriving DecidableEq

/-- One iteration of the listing while-loop as served by the site. -/
inductive PageLoad where
  /-- An exception escaping the per-iteration code outside the inner
  try-blocks (for example a browser fault in `query_selector_all` at line
  531): it propagates to the outer handler at line 865. -/
  | fatal : PageLoad
  /-- A page load with its extracted entries and the pagination outcome. -/
  | page (entries : List Entry) (pag : PagOutcome) : PageLoad
deriving DecidableEq

/-- Result of the paginated listing traversal. -/
structure RunResult where
  db : DB
  collected : Nat
  pagesVisited : Nat
  ids : List Nat
  fatal : Bool
deriving DecidableEq

/-- The while-loop of `get_agencies_in_category` (iboss_scraper.py lines
524-852): process the entries of the current page; break out of the loop if
the cap broke the inner loop (line 553) or is reached after it (lines
696-700); otherwise advance exactly when the pagination decision found a
next page — a caught pagination error merely ends the loop (line 852).  A
fatal fault aborts the traversal, recording `fatal := true`. -/
def run_category (category_id : Nat) (category_name : String) (maxA : Nat) :
    List PageLoad → DB → Nat → RunResult
  | [], db, c => ⟨db, c, 0, [], false⟩
  | .fatal :: _, db, c => ⟨db, c, 0, [], true⟩
  | .page es pag :: rest, db, c =>
      let r1 := process_page category_id category_name maxA es db c
      if r1.capBreak ∨ (0 < maxA ∧ maxA ≤ r1.collected) then
        ⟨r1.db, r1.collected, 1, r1.ids, false⟩
      else
        match pag with
        | .lastPage => ⟨r1.db, r1.collected, 1, r1.ids, false⟩
        | .pagError => ⟨r1.db, r1.collected, 1, r1.ids, false⟩
        | .nextPage =>
            let r2 := run_category category_id category_name maxA rest r1.db r1.collected
            ⟨r2.db, r2.collected, r2.pagesVisited + 1, r1.ids ++ r2.ids, r2.fatal⟩

/-- `IBossScraper.get_agencies_in_category` (iboss_scraper.py lines 499-867):
navigate (the navigator's boolean result is discarded — line 507 ignores the
return value of `navigate_to_url`, so `navOk` is unused), run the paginated
traversal, and — whenever no exception escaped to the outer handler — mark
the category scraped (line 855) and return the collected data; on a fatal
fault the outer handler returns `[]` without marking (lines 865-867).
Session-counter updates (lines 673-676, 857-860), which only touch the
`scraping_status` table, are not modelled here. -/
def get_agencies_in_category_model (db : DB) (navOk : Bool) (category_id : Nat)
    (category_name : String) (maxA : Nat) (loads : List PageLoad) : DB × List Nat :=
  let r := run_category category_id category_name maxA loads db 0
  if r.fatal then (r.db, [])
  else (mark_category_scraped r.db category_id, r.ids)

/-- Total number of entries available across all listing pages. -/
def totalEntries (pages : List (List Entry)) : Nat :=
  (pages.map List.length).sum

/-- Number of pages the capped traversal is expected to visit: the first
prefix of pages whose entry count reaches the remaining budget, or all
pages. -/
def cap_pages_expected (n : Nat) : List (List Entry) → Nat
  | [] => 0
  | p :: rest => if n ≤ p.length then 1 else 1 + cap_pages_expected (n - p.length) rest

/-- Encode a fault-free paginated listing: every page load succeeds and the
page-advance decision finds a next button exactly when more pages exist. -/
def pagesOf : List (List Entry) → List PageLoad
  | [] => []
  | es :: rest =>
      .page es (if rest.isEmpty then .lastPage else .nextPage) :: pagesOf rest

/-! ### Category discovery and the orchestrator's selection -/

/-- A category as presented on the directory page, after the text parsing of
`get_categories` (iboss_scraper.py lines 414-425): display name, absolute
link, and the advisory agency count. -/
structure SiteCategory where
  name : String
  link : String
  count : String
deriving DecidableEq

/-- The discovery pass of `IBossScraper.get_categories` (iboss_scraper.py
lines 396-444): upsert every category found on the page via
`Database.insert_category` (line 428) and return the transfer objects
(surrogate id plus the parsed fields, lines 430-435). -/
def get_categories_model (db : DB) :
    List SiteCategory → List (Nat × SiteCategory) × DB
  | [] => ([], db)
  | sc :: rest =>
      let ins := insert_category db sc.name sc.link sc.count
      let tail := get_categories_model ins.2 rest
      ((ins.1, sc) :: tail.1, tail.2)

/-- The category selection of `IBossScraper.scrape_all` (iboss_scraper.py
lines 992-999): run discovery, then — when a target list was given (a
non-empty `target_categories`; an empty list is falsy at line 996) — keep
the categories whose name is in the target list.  `scrape_all` then calls
`get_agencies_in_category` for every selected category (lines 1009-1015);
the `scraped` flag is never consulted. -/
def scrape_all_selected (db : DB) (site : List SiteCategory) (targets : List String) :
    List (Nat × SiteCategory) × DB :=
  let disc := get_categories_model db site
  (if targets.isEmpty then disc.1
   else disc.1.filter (fun c => targets.contains c.2.name), disc.2)

/-! ### Reachable store states -/

/-- One store mutation as performed by the scraper: the five `Database`
mutators at the call shapes their callers use.  `agencyDetailFetch` is the
call site of `update_agency_detail` — `get_agency_detail` is its only
caller (iboss_scraper.py line 934). -/
inductive DBStep : DB → DB → Prop where
  | insertCategory (db : DB) (n l c : String) :
      DBStep db (insert_category db n l c).2
  | insertAgency (db : DB) (cid : Nat) (cn an : String)
      (u g d i du lp : Option String) :
      DBStep db (insert_agency db cid cn an u g d i du lp).2
  | agencyDetailFetch (db : DB) (aid : Nat) (url : Option String) (navOk : Bool)
      (intro bodyRaw : Option String) :
      DBStep db (get_agency_detail_model db aid url navOk intro bodyRaw).1
  | markCategoryScraped (db : DB) (cid : Nat) :
      DBStep db (mark_category_scraped db cid)
  | startSession (db : DB) (now : Nat) :
      DBStep db (start_scraping_session db now).2
  | updateStatus (db : DB) (now sid : Nat)
      (ct cs agt ags dt ds : Option Nat) (status : Option String) :
      DBStep db (update_scraping_status db now sid ct cs agt ags dt ds status)

/-- A store state reachable by the scraper from a fresh database. -/
def Reach (db : DB) : Prop := Relation.ReflTransGen DBStep emptyDB db

/-- The detail invariant: an agency flagged `detailed_scraped` has a
non-null long-form description. -/
def detailInv (db : DB) : Prop :=
  ∀ r ∈ db.agencies, r.detailed_scraped = true → r.agency_detail_desc.isSome = true

/-- Number of agency rows recorded for a category. -/
def countAg (db : DB) (category_id : Nat) : Nat :=
  (db.agencies.filter (fun r => r.category_id == category_id)).length

/-- No agency row with this `(category_id, agency_name)` key exists yet, so
the upsert of `insert_agency` takes its insert branch. -/
def agFresh (db : DB) (category_id : Nat) (nm : String) : Prop :=
  ∀ r ∈ db.agencies, ¬(r.category_id = category_id ∧ r.agency_name = nm)

/-- The extractable names of the entries of one listing page. -/
def entryNames (es : List Entry) : List String := es.filterMap Entry.name

/-- The extractable names across all listing pages. -/
def pagesNames (pages : List (List Entry)) : List String :=
  (pages.map entryNames).flatten

/-! ### Concrete stores used by the claim theorems -/

/-- Three concrete named listing entries spread over two pages, used by the
cap-enforcement witness. -/
def c3_pages : List (List Entry) :=
  [[{ name := some "a", href := none, url := none, logo := none, desc := none,
      downloaded := none },
    { name := some "b", href := none, url := none, logo := none, desc := none,
      downloaded := none }],
   [{ name := some "d", href := none, url := none, logo := none, desc := none,
      downloaded := none }]]

/-- The concrete store of the resume scenario: category "A" (id 1) has
`scraped = true`, category "B" (id 2) has `scraped = false`. -/
def c2_db : DB :=
  mark_category_scraped
    (insert_category (insert_category emptyDB "A" "la" "1").2 "B" "lb" "2").2 1

/-- A store holding one session created at time 10 (status 'running'). -/
def c7_db : DB := (start_scraping_session emptyDB 10).2

/-- A store holding two sessions (ids 1 and 2). -/
def c10_db : DB := (start_scraping_session (start_scraping_session emptyDB 10).2 20).2

/-! ### Helper lemmas -/

theorem find?_none_forall {α} {p : α → Bool} :
    ∀ {l : List α}, l.find? p = none → ∀ a ∈ l, p a = false := by
  intro l
  induction l with
  | nil => intro _ a ha; exact absurd ha (List.not_mem_nil a)
  | cons x xs ih =>
      intro h a ha
      by_cases hx : p x = true
      · rw [List.find?_cons_of_pos _ hx] at h; exact absurd h (by simp)
      · rw [List.find?_cons_of_neg _ (by simpa using hx)] at h
        rcases List.mem_cons.mp ha with rfl | ha'
        · simpa using hx
        · exact ih h a ha'

theorem find?_append_none {α} {p : α → Bool} {l₁ : List α} (l₂ : List α)
    (h : l₁.find? p = none) : (l₁ ++ l₂).find? p = l₂.find? p := by
  induction l₁ with
  | nil => rfl
  | cons x xs ih =>
      have hx : p x = false := find?_none_forall h x (List.mem_cons_self x xs)
      have hxs : xs.find? p = none := by
        rwa [List.find?_cons_of_neg _ (by simp [hx])] at h
      rw [List.cons_append, List.find?_cons_of_neg _ (by simp [hx])]
      exact ih hxs

theorem filter_none {α} {p : α → Bool} :
    ∀ {l : List α}, (∀ a ∈ l, p a = false) → l.filter p = [] := by
  intro l
  induction l with
  | nil => intro _; rfl
  | cons x xs ih =>
      intro h
      rw [List.filter_cons, if_neg (by simp [h x (List.mem_cons_self x xs)])]
      exact ih (fun a ha => h a (List.mem_cons_of_mem x ha))

theorem searchIdx_none_of_not_sub :
    ∀ {l : List Char}, hasIdxSub l = false → searchIdx l = none := by
  intro l
  induction l with
  | nil => intro _; rfl
  | cons c rest ih =>
      intro h
      simp only [hasIdxSub, Bool.or_eq_false_iff] at h
      have hm : idxMatchAt (c :: rest) = none := by
        unfold idxMatchAt
        rw [if_neg]
        intro he
        have h1 := h.1
        rw [he] at h1
        simp at h1
      simp only [searchIdx, hm]
      exact ih h.2

theorem takeWhile_append_all {p : Char → Bool} :
    ∀ {ds b : List Char}, ds.all p = true →
      (ds ++ b).takeWhile p = ds ++ b.takeWhile p := by
  intro ds
  induction ds with
  | nil => intro b _; rfl
  | cons d rest ih =>
      intro b hall
      simp only [List.all_cons, Bool.and_eq_true] at hall
      rw [List.cons_append, List.takeWhile_cons, if_pos hall.1, ih hall.2]
      rfl

theorem searchIdx_first_occurrence :
    ∀ (a : List Char) (ds b : List Char), ds ≠ [] → ds.all isDigitChar = true →
      (∀ i, i < a.length →
        idxMatchAt ((a ++ 'i' :: 'd' :: 'x' :: '=' :: (ds ++ b)).drop i) = none) →
      b.takeWhile isDigitChar = [] →
      searchIdx (a ++ 'i' :: 'd' :: 'x' :: '=' :: (ds ++ b)) = some ds
  | [], ds, b, hne, hds, _, hb => by
      rw [List.nil_append]
      have hm : idxMatchAt ('i' :: 'd' :: 'x' :: '=' :: (ds ++ b)) = some ds := by
        unfold idxMatchAt
        rw [show List.take 4 ('i' :: 'd' :: 'x' :: '=' :: (ds ++ b))
              = ['i', 'd', 'x', '='] from rfl,
          if_pos rfl,
          show List.drop 4 ('i' :: 'd' :: 'x' :: '=' :: (ds ++ b)) = ds ++ b from rfl,
          takeWhile_append_all hds, hb, List.append_nil]
        cases ds with
        | nil => exact absurd rfl hne
        | cons d rest => rfl
      simp only [searchIdx, hm]
  | x :: a', ds, b, hne, hds, hnm, hb => by
      rw [List.cons_append]
      have h0 : idxMatchAt (x :: (a' ++ 'i' :: 'd' :: 'x' :: '=' :: (ds ++ b))) = none := by
        have := hnm 0 (by simp)
        simpa using this
      simp only [searchIdx, h0]
      exact searchIdx_first_occurrence a' ds b hne hds
        (fun i hi => by
          have := hnm (i + 1) (by simpa using Nat.succ_lt_succ hi)
          simpa using this) hb

theorem length_dropWhile_le' {p : Char → Bool} :
    ∀ l : List Char, (l.dropWhile p).length ≤ l.length := by
  intro l
  induction l with
  | nil => exact Nat.le_refl 0
  | cons a l ih =>
      rw [List.dropWhile_cons]
      by_cases h : p a = true
      · rw [if_pos h]; exact Nat.le_succ_of_le ih
      · rw [if_neg h]

theorem collapse_ws_length_le : ∀ l : List Char, (collapse_ws l).length ≤ l.length
  | [] => Nat.le_refl 0
  | [c] => by by_cases h : isSpaceChar c = true <;> simp [collapse_ws, h]
  | c :: c2 :: rest => by
      have ih := collapse_ws_length_le (c2 :: rest)
      by_cases h : (isSpaceChar c && isSpaceChar c2) = true
      · rw [collapse_ws, if_pos h]
        exact Nat.le_succ_of_le ih
      · rw [collapse_ws, if_neg h]
        simpa using ih

theorem strip_ws_length_le (l : List Char) : (strip_ws l).length ≤ l.length := by
  unfold strip_ws
  rw [List.length_reverse]
  calc ((l.dropWhile isSpaceChar).reverse.dropWhile isSpaceChar).length
      ≤ (l.dropWhile isSpaceChar).reverse.length := length_dropWhile_le' _
    _ = (l.dropWhile isSpaceChar).length := List.length_reverse _
    _ ≤ l.length := length_dropWhile_le' _

theorem normalize_ws_length_le (s : String) :
    (normalize_ws s).data.length ≤ s.data.length := by
  unfold normalize_ws
  calc (strip_ws (collapse_ws s.data)).length
      ≤ (collapse_ws s.data).length := strip_ws_length_le _
    _ ≤ s.data.length := collapse_ws_length_le _

theorem insert_agency_categories (db : DB) (cid : Nat) (cn an : String)
    (u g d i du lp : Option String) :
    (insert_agency db cid cn an u g d i du lp).2.categories = db.categories := by
  unfold insert_agency
  split <;> rfl

theorem process_entry_categories (db : DB) (cid : Nat) (cn : String) (e : Entry) :
    (process_entry db cid cn e).2.categories = db.categories := by
  unfold process_entry
  split
  · rfl
  · apply insert_agency_categories

theorem process_page_categories (cid : Nat) (cn : String) (maxA : Nat) :
    ∀ (es : List Entry) (db : DB) (c : Nat),
    (process_page cid cn maxA es db c).db.categories = db.categories := by
  intro es
  induction es with
  | nil => intro db c; rfl
  | cons e rest ih =>
      intro db c
      unfold process_page
      split
      · rfl
      · split
        · next db' heq =>
            rw [ih]
            have h := process_entry_categories db cid cn e
            rw [heq] at h
            exact h
        · next aid db' heq =>
            simp only []
            rw [ih]
            have h := process_entry_categories db cid cn e
            rw [heq] at h
            exact h

theorem run_category_categories (cid : Nat) (cn : String) (maxA : Nat) :
    ∀ (loads : List PageLoad) (db : DB) (c : Nat),
    (run_category cid cn maxA loads db c).db.categories = db.categories := by
  intro loads
  induction loads with
  | nil => intro db c; rfl
  | cons l rest ih =>
      intro db c
      cases l with
      | fatal => rfl
      | page es pag =>
          simp only [run_category]
          split
          · exact process_page_categories cid cn maxA es db c
          · cases pag
            · simp only []
              rw [ih]
              exact process_page_categories cid cn maxA es db c
            · exact process_page_categories cid cn maxA es db c
            · exact process_page_categories cid cn maxA es db c

theorem dbstep_detailInv {db db' : DB} (h : DBStep db db') (hinv : detailInv db) :
    detailInv db' := by
  cases h with
  | insertCategory n l c =>
      intro r hr
      revert hr
      unfold insert_category
      split <;> intro hr <;> exact hinv r hr
  | insertAgency cid cn an u g d i du lp =>
      intro r hr
      revert hr
      unfold insert_agency
      split
      · next ex hfind =>
          intro hr hflag
          rcases List.mem_map.mp hr with ⟨r0, hr0, rfl⟩
          by_cases h0 : r0.id = ex.id
          · simp only [if_pos h0] at hflag ⊢
            exact hinv r0 hr0 hflag
          · simp only [if_neg h0] at hflag ⊢
            exact hinv r0 hr0 hflag
      · next hfind =>
          intro hr hflag
          rcases List.mem_append.mp hr with hr | hr
          · exact hinv r hr hflag
          · simp at hr
            rw [hr] at hflag
            simp at hflag
  | agencyDetailFetch aid url navOk intro bodyRaw =>
      revert hinv
      unfold get_agency_detail_model
      split
      · exact fun hinv => hinv
      · split
        · exact fun hinv => hinv
        · split
          · exact fun hinv => hinv
          · next d hd =>
              intro hinv r hr hflag
              unfold update_agency_detail at hr
              simp only [] at hr
              rcases List.mem_map.mp hr with ⟨r0, hr0, rfl⟩
              by_cases h0 : r0.id = aid
              · simp [h0]
              · simp only [if_neg h0] at hflag ⊢
                exact hinv r0 hr0 hflag
  | markCategoryScraped cid =>
      intro r hr
      exact hinv r hr
  | startSession now =>
      intro r hr
      exact hinv r hr
  | updateStatus now sid ct cs agt ags dt ds status =>
      intro r hr
      revert hr
      unfold update_scraping_status
      split <;> intro hr <;> exact hinv r hr

theorem process_page_count (cid : Nat) (cn : String) (N : Nat) :
    ∀ (es : List Entry) (db : DB) (c : Nat), 0 < N → c ≤ N →
      (∀ e ∈ es, e.name.isSome = true) →
      (process_page cid cn N es db c).collected = c + min (N - c) es.length
      ∧ (process_page cid cn N es db c).ids.length = min (N - c) es.length
      ∧ (process_page cid cn N es db c).capBreak = decide (N - c < es.length) := by
  intro es
  induction es with
  | nil =>
      intro db c hN hc _
      refine ⟨?_, ?_, ?_⟩ <;> simp [process_page]
  | cons e rest ih =>
      intro db c hN hc hnm
      by_cases hcN : c = N
      · subst hcN
        unfold process_page
        rw [if_pos ⟨hN, Nat.le_refl c⟩]
        refine ⟨by simp, by simp, by simp⟩
      · have hlt : c < N := Nat.lt_of_le_of_ne hc hcN
        unfold process_page
        rw [if_neg (fun hcontra => absurd hcontra.2 (Nat.not_le.mpr hlt))]
        obtain ⟨nm, hnm0⟩ := Option.isSome_iff_exists.mp
          (hnm e (List.mem_cons_self e rest))
        rcases hpe : process_entry db cid cn e with ⟨oid, db'⟩
        have hoid : oid.isSome = true := by
          have : (process_entry db cid cn e).1.isSome = true := by
            simp only [process_entry, hnm0]
            rfl
          rw [hpe] at this
          exact this
        obtain ⟨aid, haid⟩ := Option.isSome_iff_exists.mp hoid
        subst haid
        have ihh := ih db' (c + 1) hN hlt
          (fun e' he' => hnm e' (List.mem_cons_of_mem e he'))
        refine ⟨?_, ?_, ?_⟩
        · simp only [ihh.1, List.length_cons]
          omega
        · simp only [List.length_cons, ihh.2.1]
          omega
        · simp only [ihh.2.2, List.length_cons]
          apply decide_eq_decide.mpr
          omega

theorem process_page_count_nocap (cid : Nat) (cn : String) :
    ∀ (es : List Entry) (db : DB) (c : Nat),
      (∀ e ∈ es, e.name.isSome = true) →
      (process_page cid cn 0 es db c).collected = c + es.length
      ∧ (process_page cid cn 0 es db c).ids.length = es.length
      ∧ (process_page cid cn 0 es db c).capBreak = false := by
  intro es
  induction es with
  | nil => intro db c _; refine ⟨by simp [process_page], rfl, rfl⟩
  | cons e rest ih =>
      intro db c hnm
      unfold process_page
      rw [if_neg (fun hcontra => absurd hcontra.1 (Nat.lt_irrefl 0))]
      obtain ⟨nm, hnm0⟩ := Option.isSome_iff_exists.mp
        (hnm e (List.mem_cons_self e rest))
      rcases hpe : process_entry db cid cn e with ⟨oid, db'⟩
      have hoid : oid.isSome = true := by
        have : (process_entry db cid cn e).1.isSome = true := by
          simp only [process_entry, hnm0]
          rfl
        rw [hpe] at this
        exact this
      obtain ⟨aid, haid⟩ := Option.isSome_iff_exists.mp hoid
      subst haid
      have ihh := ih db' (c + 1)
        (fun e' he' => hnm e' (List.mem_cons_of_mem e he'))
      refine ⟨?_, ?_, ?_⟩
      · simp only [ihh.1, List.length_cons]
        omega
      · simp only [List.length_cons, ihh.2.1]
      · simp only [ihh.2.2]

theorem totalEntries_nil : totalEntries [] = 0 := rfl

theorem totalEntries_cons (p : List Entry) (ps : List (List Entry)) :
    totalEntries (p :: ps) = p.length + totalEntries ps := by
  simp [totalEntries]

theorem run_category_cap (cid : Nat) (cn : String) (N : Nat) :
    ∀ (pages : List (List Entry)) (db : DB) (c : Nat), 0 < N → c < N →
      (∀ p ∈ pages, ∀ e ∈ p, e.name.isSome = true) →
      (run_category cid cn N (pagesOf pages) db c).collected
          = c + min (N - c) (totalEntries pages)
      ∧ (run_category cid cn N (pagesOf pages) db c).ids.length
          = min (N - c) (totalEntries pages)
      ∧ (run_category cid cn N (pagesOf pages) db c).pagesVisited
          = cap_pages_expected (N - c) pages
      ∧ (run_category cid cn N (pagesOf pages) db c).fatal = false := by
  intro pages
  induction pages with
  | nil =>
      intro db c hN hc _
      refine ⟨?_, ?_, ?_, ?_⟩ <;>
        simp [pagesOf, run_category, totalEntries, cap_pages_expected]
  | cons es rest ih =>
      intro db c hN hc hnm
      have hpp := process_page_count cid cn N es db c hN (Nat.le_of_lt hc)
        (hnm es (List.mem_cons_self es rest))
      have hname_rest : ∀ p ∈ rest, ∀ e ∈ p, e.name.isSome = true :=
        fun p hp => hnm p (List.mem_cons_of_mem es hp)
      cases rest with
      | nil =>
          rw [show pagesOf [es] = [PageLoad.page es PagOutcome.lastPage] from rfl]
          have hrun : run_category cid cn N [PageLoad.page es PagOutcome.lastPage] db c
              = ⟨(process_page cid cn N es db c).db,
                 (process_page cid cn N es db c).collected, 1,
                 (process_page cid cn N es db c).ids, false⟩ := by
            simp only [run_category]
            split
            · rfl
            · rfl
          rw [hrun]
          refine ⟨?_, ?_, ?_, ?_⟩
          · simp only [hpp.1, totalEntries_cons, totalEntries_nil]
            omega
          · simp only [hpp.2.1, totalEntries_cons, totalEntries_nil]
            omega
          · rw [show cap_pages_expected (N - c) [es]
                = if N - c ≤ es.length then 1
                  else 1 + cap_pages_expected (N - c - es.length) [] from rfl]
            split <;> rfl
          · rfl
      | cons p2 rest2 =>
          rw [show pagesOf (es :: p2 :: rest2)
              = PageLoad.page es PagOutcome.nextPage :: pagesOf (p2 :: rest2) from rfl]
          have hstep : run_category cid cn N
              (PageLoad.page es PagOutcome.nextPage :: pagesOf (p2 :: rest2)) db c
              = if (process_page cid cn N es db c).capBreak = true
                   ∨ (0 < N ∧ N ≤ (process_page cid cn N es db c).collected)
                then ⟨(process_page cid cn N es db c).db,
                      (process_page cid cn N es db c).collected, 1,
                      (process_page cid cn N es db c).ids, false⟩
                else ⟨(run_category cid cn N (pagesOf (p2 :: rest2))
                         (process_page cid cn N es db c).db
                         (process_page cid cn N es db c).collected).db,
                      (run_category cid cn N (pagesOf (p2 :: rest2))
                         (process_page cid cn N es db c).db
                         (process_page cid cn N es db c).collected).collected,
                      (run_category cid cn N (pagesOf (p2 :: rest2))
                         (process_page cid cn N es db c).db
                         (process_page cid cn N es db c).collected).pagesVisited + 1,
                      (process_page cid cn N es db c).ids ++
                        (run_category cid cn N (pagesOf (p2 :: rest2))
                           (process_page cid cn N es db c).db
                           (process_page cid cn N es db c).collected).ids,
                      (run_category cid cn N (pagesOf (p2 :: rest2))
                         (process_page cid cn N es db c).db
                         (process_page cid cn N es db c).collected).fatal⟩ := rfl
          rw [hstep]
          by_cases hle : N - c ≤ es.length
          · have hcond : ((process_page cid cn N es db c).capBreak = true)
                ∨ (0 < N ∧ N ≤ (process_page cid cn N es db c).collected) := by
              rw [hpp.2.2, hpp.1]
              by_cases hlt2 : N - c < es.length
              · exact Or.inl (by simpa using hlt2)
              · exact Or.inr ⟨hN, by omega⟩
            rw [if_pos hcond]
            refine ⟨?_, ?_, ?_, ?_⟩
            · simp only [hpp.1, totalEntries_cons]
              omega
            · simp only [hpp.2.1, totalEntries_cons]
              omega
            · simp only [cap_pages_expected]
              rw [if_pos hle]
            · rfl
          · have hcond : ¬ (((process_page cid cn N es db c).capBreak = true)
                ∨ (0 < N ∧ N ≤ (process_page cid cn N es db c).collected)) := by
              rw [hpp.2.2, hpp.1]
              intro hor
              rcases hor with h1 | h2
              · simp at h1
                omega
              · rcases h2 with ⟨_, hB⟩
                omega
            rw [if_neg hcond]
            have hc1 : (process_page cid cn N es db c).collected = c + es.length := by
              rw [hpp.1]
              omega
            have hc1lt : (process_page cid cn N es db c).collected < N := by
              rw [hc1]
              omega
            have ihh := ih (process_page cid cn N es db c).db
              (process_page cid cn N es db c).collected hN hc1lt hname_rest
            rw [hc1] at ihh
            refine ⟨?_, ?_, ?_, ?_⟩
            · simp only [hc1, ihh.1, totalEntries_cons]
              omega
            · simp only [List.length_append, hpp.2.1, hc1, ihh.2.1, totalEntries_cons]
              omega
            · rw [show cap_pages_expected (N - c) (es :: p2 :: rest2)
                  = if N - c ≤ es.length then 1
                    else 1 + cap_pages_expected (N - c - es.length) (p2 :: rest2) from rfl,
                if_neg hle]
              simp only [hc1, ihh.2.2.1, Nat.sub_sub]
              omega
            · simp only [hc1, ihh.2.2.2]

theorem run_category_nocap (cid : Nat) (cn : String) :
    ∀ (pages : List (List Entry)) (db : DB) (c : Nat),
      (∀ p ∈ pages, ∀ e ∈ p, e.name.isSome = true) →
      (run_category cid cn 0 (pagesOf pages) db c).collected = c + totalEntries pages
      ∧ (run_category cid cn 0 (pagesOf pages) db c).ids.length = totalEntries pages
      ∧ (run_category cid cn 0 (pagesOf pages) db c).pagesVisited = pages.length
      ∧ (run_category cid cn 0 (pagesOf pages) db c).fatal = false := by
  intro pages
  induction pages with
  | nil =>
      intro db c _
      refine ⟨?_, ?_, ?_, ?_⟩ <;> simp [pagesOf, run_category, totalEntries]
  | cons es rest ih =>
      intro db c hnm
      have hpp := process_page_count_nocap cid cn es db c
        (hnm es (List.mem_cons_self es rest))
      have hname_rest : ∀ p ∈ rest, ∀ e ∈ p, e.name.isSome = true :=
        fun p hp => hnm p (List.mem_cons_of_mem es hp)
      have hcond : ¬ (((process_page cid cn 0 es db c).capBreak = true)
          ∨ (0 < 0 ∧ 0 ≤ (process_page cid cn 0 es db c).collected)) := by
        rw [hpp.2.2]
        intro hor
        rcases hor with h1 | h2
        · exact absurd h1 (by simp)
        · exact absurd h2.1 (Nat.lt_irrefl 0)
      cases rest with
      | nil =>
          rw [show pagesOf [es] = [PageLoad.page es PagOutcome.lastPage] from rfl]
          have hrun : run_category cid cn 0 [PageLoad.page es PagOutcome.lastPage] db c
              = ⟨(process_page cid cn 0 es db c).db,
                 (process_page cid cn 0 es db c).collected, 1,
                 (process_page cid cn 0 es db c).ids, false⟩ := by
            simp only [run_category]
            split
            · rfl
            · rfl
          rw [hrun]
          refine ⟨?_, ?_, ?_, ?_⟩
          · simp only [hpp.1, totalEntries_cons, totalEntries_nil]
            omega
          · simp only [hpp.2.1, totalEntries_cons, totalEntries_nil]
            omega
          · rfl
          · rfl
      | cons p2 rest2 =>
          rw [show pagesOf (es :: p2 :: rest2)
              = PageLoad.page es PagOutcome.nextPage :: pagesOf (p2 :: rest2) from rfl]
          have hstep : run_category cid cn 0
              (PageLoad.page es PagOutcome.nextPage :: pagesOf (p2 :: rest2)) db c
              = if (process_page cid cn 0 es db c).capBreak = true
                   ∨ (0 < 0 ∧ 0 ≤ (process_page cid cn 0 es db c).collected)
                then ⟨(process_page cid cn 0 es db c).db,
                      (process_page cid cn 0 es db c).collected, 1,
                      (process_page cid cn 0 es db c).ids, false⟩
                else ⟨(run_category cid cn 0 (pagesOf (p2 :: rest2))
                         (process_page cid cn 0 es db c).db
                         (process_page cid cn 0 es db c).collected).db,
                      (run_category cid cn 0 (pagesOf (p2 :: rest2))
                         (process_page cid cn 0 es db c).db
                         (process_page cid cn 0 es db c).collected).collected,
                      (run_category cid cn 0 (pagesOf (p2 :: rest2))
                         (process_page cid cn 0 es db c).db
                         (process_page cid cn 0 es db c).collected).pagesVisited + 1,
                      (process_page cid cn 0 es db c).ids ++
                        (run_category cid cn 0 (pagesOf (p2 :: rest2))
                           (process_page cid cn 0 es db c).db
                           (process_page cid cn 0 es db c).collected).ids,
                      (run_category cid cn 0 (pagesOf (p2 :: rest2))
                         (process_page cid cn 0 es db c).db
                         (process_page cid cn 0 es db c).collected).fatal⟩ := rfl
          rw [hstep, if_neg hcond]
          have ihh := ih (process_page cid cn 0 es db c).db
            (process_page cid cn 0 es db c).collected hname_rest
          rw [hpp.1] at ihh
          refine ⟨?_, ?_, ?_, ?_⟩
          · simp only [hpp.1, ihh.1, totalEntries_cons]
            omega
          · simp only [List.length_append, hpp.2.1, hpp.1, ihh.2.1, totalEntries_cons]
          · simp only [hpp.1, ihh.2.2.1, List.length_cons]
          · simp only [hpp.1, ihh.2.2.2]

theorem find?_none_of_forall {α} {p : α → Bool} :
    ∀ {l : List α}, (∀ a ∈ l, p a = false) → l.find? p = none := by
  intro l
  induction l with
  | nil => intro _; rfl
  | cons x xs ih =>
      intro h
      rw [List.find?_cons_of_neg _ (by simp [h x (List.mem_cons_self x xs)])]
      exact ih (fun a ha => h a (List.mem_cons_of_mem x ha))

theorem insert_agency_fresh (db : DB) (cid : Nat) (cn nm : String)
    (u g d i du lp : Option String) (h : agFresh db cid nm) :
    countAg (insert_agency db cid cn nm u g d i du lp).2 cid = countAg db cid + 1
    ∧ ∀ nm', nm' ≠ nm → agFresh db cid nm' →
        agFresh (insert_agency db cid cn nm u g d i du lp).2 cid nm' := by
  have hfind : db.agencies.find?
      (fun r => r.category_id == cid && r.agency_name == nm) = none := by
    apply find?_none_of_forall
    intro r hr
    have hnr := h r hr
    rw [Bool.eq_false_iff]
    intro hp
    exact hnr (by simpa using hp)
  unfold insert_agency
  rw [hfind]
  constructor
  · simp [countAg, List.filter_append]
  · intro nm' hne hfr r hr hkey
    rcases List.mem_append.mp hr with hr | hr
    · exact hfr r hr hkey
    · simp at hr
      rw [hr] at hkey
      exact hne (hkey.2.symm)

theorem process_entry_rows (db : DB) (cid : Nat) (cn : String) (e : Entry) (nm : String)
    (hnm : e.name = some nm) (h : agFresh db cid nm) :
    countAg (process_entry db cid cn e).2 cid = countAg db cid + 1
    ∧ ∀ nm', nm' ≠ nm → agFresh db cid nm' →
        agFresh (process_entry db cid cn e).2 cid nm' := by
  simp only [process_entry, hnm]
  exact insert_agency_fresh db cid cn nm _ _ _ _ _ _ h

theorem entryNames_cons_some {e : Entry} {rest : List Entry} {nm : String}
    (hnm : e.name = some nm) :
    entryNames (e :: rest) = nm :: entryNames rest := by
  simp [entryNames, List.filterMap_cons, hnm]

theorem process_page_rows (cid : Nat) (cn : String) (maxA : Nat) :
    ∀ (es : List Entry) (db : DB) (c : Nat),
      (∀ e ∈ es, e.name.isSome = true) →
      (entryNames es).Nodup →
      (∀ nm ∈ entryNames es, agFresh db cid nm) →
      countAg (process_page cid cn maxA es db c).db cid
          = countAg db cid + (process_page cid cn maxA es db c).ids.length
      ∧ ∀ nm', nm' ∉ entryNames es → agFresh db cid nm' →
          agFresh (process_page cid cn maxA es db c).db cid nm' := by
  intro es
  induction es with
  | nil =>
      intro db c _ _ _
      exact ⟨rfl, fun nm' _ hfr => hfr⟩
  | cons e rest ih =>
      intro db c hnamed hnodup hfresh
      obtain ⟨nm, hnm⟩ := Option.isSome_iff_exists.mp
        (hnamed e (List.mem_cons_self e rest))
      rw [entryNames_cons_some hnm] at hnodup hfresh ⊢
      have hnmfresh : agFresh db cid nm := hfresh nm (List.mem_cons_self _ _)
      have hnodup' := (List.nodup_cons.mp hnodup).2
      have hnotin := (List.nodup_cons.mp hnodup).1
      unfold process_page
      split
      · exact ⟨rfl, fun nm' _ hfr => hfr⟩
      · rcases hpe : process_entry db cid cn e with ⟨oid, db'⟩
        have hoid : oid.isSome = true := by
          have h1 : (process_entry db cid cn e).1.isSome = true := by
            simp only [process_entry, hnm]
            rfl
          rw [hpe] at h1
          exact h1
        obtain ⟨aid, haid⟩ := Option.isSome_iff_exists.mp hoid
        subst haid
        have hper := process_entry_rows db cid cn e nm hnm hnmfresh
        rw [hpe] at hper
        have hfresh' : ∀ nm2 ∈ entryNames rest, agFresh db' cid nm2 := by
          intro nm2 hnm2
          exact hper.2 nm2 (fun heq => hnotin (heq ▸ hnm2))
            (hfresh nm2 (List.mem_cons_of_mem _ hnm2))
        have ihh := ih db' (c + 1) (fun e' he' => hnamed e' (List.mem_cons_of_mem e he'))
          hnodup' hfresh'
        constructor
        · simp only [List.length_cons]
          rw [ihh.1, hper.1]
          omega
        · intro nm' hnm' hfr
          have hne : nm' ≠ nm := fun heq => hnm' (heq ▸ List.mem_cons_self _ _)
          have hnotin' : nm' ∉ entryNames rest :=
            fun hmem => hnm' (List.mem_cons_of_mem _ hmem)
          exact ihh.2 nm' hnotin' (hper.2 nm' hne hfr)

theorem pagesNames_cons (p : List Entry) (ps : List (List Entry)) :
    pagesNames (p :: ps) = entryNames p ++ pagesNames ps := by
  simp [pagesNames]

theorem run_category_rows (cid : Nat) (cn : String) (maxA : Nat) :
    ∀ (pages : List (List Entry)) (db : DB) (c : Nat),
      (∀ p ∈ pages, ∀ e ∈ p, e.name.isSome = true) →
      (pagesNames pages).Nodup →
      (∀ nm ∈ pagesNames pages, agFresh db cid nm) →
      countAg (run_category cid cn maxA (pagesOf pages) db c).db cid
          = countAg db cid + (run_category cid cn maxA (pagesOf pages) db c).ids.length
      ∧ ∀ nm', nm' ∉ pagesNames pages → agFresh db cid nm' →
          agFresh (run_category cid cn maxA (pagesOf pages) db c).db cid nm' := by
  intro pages
  induction pages with
  | nil =>
      intro db c _ _ _
      exact ⟨rfl, fun nm' _ hfr => hfr⟩
  | cons es rest ih =>
      intro db c hnamed hnodup hfresh
      rw [pagesNames_cons] at hnodup hfresh
      have hnd := List.nodup_append.mp hnodup
      have hfresh_es : ∀ nm ∈ entryNames es, agFresh db cid nm :=
        fun nm hmem => hfresh nm (List.mem_append_left _ hmem)
      have hpr := process_page_rows cid cn maxA es db c
        (hnamed es (List.mem_cons_self es rest)) hnd.1 hfresh_es
      cases rest with
      | nil =>
          rw [show pagesOf [es] = [PageLoad.page es PagOutcome.lastPage] from rfl]
          have hrun : run_category cid cn maxA [PageLoad.page es PagOutcome.lastPage] db c
              = ⟨(process_page cid cn maxA es db c).db,
                 (process_page cid cn maxA es db c).collected, 1,
                 (process_page cid cn maxA es db c).ids, false⟩ := by
            simp only [run_category]
            split
            · rfl
            · rfl
          rw [hrun]
          refine ⟨hpr.1, ?_⟩
          intro nm' hnm' hfr
          have hnotin_es : nm' ∉ entryNames es := by
            rw [pagesNames_cons] at hnm'
            exact fun hmem => hnm' (List.mem_append_left _ hmem)
          exact hpr.2 nm' hnotin_es hfr
      | cons p2 rest2 =>
          rw [show pagesOf (es :: p2 :: rest2)
              = PageLoad.page es PagOutcome.nextPage :: pagesOf (p2 :: rest2) from rfl]
          have hstep : run_category cid cn maxA
              (PageLoad.page es PagOutcome.nextPage :: pagesOf (p2 :: rest2)) db c
              = if (process_page cid cn maxA es db c).capBreak = true
                   ∨ (0 < maxA ∧ maxA ≤ (process_page cid cn maxA es db c).collected)
                then ⟨(process_page cid cn maxA es db c).db,
                      (process_page cid cn maxA es db c).collected, 1,
                      (process_page cid cn maxA es db c).ids, false⟩
                else ⟨(run_category cid cn maxA (pagesOf (p2 :: rest2))
                         (process_page cid cn maxA es db c).db
                         (process_page cid cn maxA es db c).collected).db,
                      (run_category cid cn maxA (pagesOf (p2 :: rest2))
                         (process_page cid cn maxA es db c).db
                         (process_page cid cn maxA es db c).collected).collected,
                      (run_category cid cn maxA (pagesOf (p2 :: rest2))
                         (process_page cid cn maxA es db c).db
                         (process_page cid cn maxA es db c).collected).pagesVisited + 1,
                      (process_page cid cn maxA es db c).ids ++
                        (run_category cid cn maxA (pagesOf (p2 :: rest2))
                           (process_page cid cn maxA es db c).db
                           (process_page cid cn maxA es db c).collected).ids,
                      (run_category cid cn maxA (pagesOf (p2 :: rest2))
                         (process_page cid cn maxA es db c).db
                         (process_page cid cn maxA es db c).collected).fatal⟩ := rfl
          rw [hstep]
          have hnotin_names : ∀ nm' , nm' ∉ pagesNames (es :: p2 :: rest2) →
              nm' ∉ entryNames es ∧ nm' ∉ pagesNames (p2 :: rest2) := by
            intro nm' hnm'
            rw [pagesNames_cons] at hnm'
            exact ⟨fun hmem => hnm' (List.mem_append_left _ hmem),
                   fun hmem => hnm' (List.mem_append_right _ hmem)⟩
          split
          · refine ⟨hpr.1, ?_⟩
            intro nm' hnm' hfr
            exact hpr.2 nm' (hnotin_names nm' hnm').1 hfr
          · have hfresh2 : ∀ nm ∈ pagesNames (p2 :: rest2),
                agFresh (process_page cid cn maxA es db c).db cid nm := by
              intro nm hmem
              exact hpr.2 nm (fun hmem_es => hnd.2.2 hmem_es hmem)
                (hfresh nm (List.mem_append_right _ hmem))
            have ihh := ih (process_page cid cn maxA es db c).db
              (process_page cid cn maxA es db c).collected
              (fun p hp => hnamed p (List.mem_cons_of_mem es hp))
              hnd.2.1 hfresh2
            constructor
            · simp only [List.length_append]
              rw [ihh.1, hpr.1]
              omega
            · intro nm' hnm' hfr
              rcases hnotin_names nm' hnm' with ⟨hes, hrest⟩
              exact ihh.2 nm' hrest (hpr.2 nm' hes hfr)

/-! ### Claim C1 -/

/-- C1: Upsert idempotence.  Calling `insert_category` twice with the same
name (on a store with no row for that name), or `insert_agency` twice with
the same `(category_id, agency_name)` pair, yields exactly one row for that
key, both calls return the same surrogate id, and the second call's fields —
in particular every non-null one — overwrite the first's. -/
theorem c1_upsert_idempotence :
    (∀ (db : DB) (name l1 cnt1 l2 cnt2 : String),
      db.categories.find? (fun r => r.category_name == name) = none →
      (insert_category (insert_category db name l1 cnt1).2 name l2 cnt2).1
          = (insert_category db name l1 cnt1).1
        ∧ ((insert_category (insert_category db name l1 cnt1).2 name l2 cnt2).2.categories.filter
            (fun r => r.category_name == name)).length = 1
        ∧ ∀ r ∈ (insert_category (insert_category db name l1 cnt1).2 name l2 cnt2).2.categories,
            r.category_name = name → r.category_link = l2 ∧ r.agency_count = cnt2)
    ∧ (∀ (db : DB) (cid : Nat) (cn an : String)
        (u1 g1 d1 i1 du1 lp1 u2 g2 d2 i2 du2 lp2 : Option String),
      db.agencies.find?
        (fun r => r.category_id == cid && r.agency_name == an) = none →
      (insert_agency (insert_agency db cid cn an u1 g1 d1 i1 du1 lp1).2
          cid cn an u2 g2 d2 i2 du2 lp2).1
        = (insert_agency db cid cn an u1 g1 d1 i1 du1 lp1).1
      ∧ ((insert_agency (insert_agency db cid cn an u1 g1 d1 i1 du1 lp1).2
          cid cn an u2 g2 d2 i2 du2 lp2).2.agencies.filter
            (fun r => r.category_id == cid && r.agency_name == an)).length = 1
      ∧ ∀ r ∈ (insert_agency (insert_agency db cid cn an u1 g1 d1 i1 du1 lp1).2
          cid cn an u2 g2 d2 i2 du2 lp2).2.agencies,
          r.category_id = cid → r.agency_name = an →
            r.agency_url = u2 ∧ r.agency_logo = g2 ∧ r.agency_desc = d2
            ∧ r.agency_idx = i2 ∧ r.agency_detail_url = du2
            ∧ r.local_logo_path = lp2) := by
  constructor
  · intro db name l1 cnt1 l2 cnt2 h
    have hall := find?_none_forall h
    set row1 : CategoryRow :=
      { id := db.next_category_id, category_name := name, category_link := l1,
        agency_count := cnt1, scraped := false } with hrow1
    have e1 : insert_category db name l1 cnt1 =
        (db.next_category_id,
          { db with categories := db.categories ++ [row1],
                    next_category_id := db.next_category_id + 1 }) := by
      unfold insert_category
      rw [h]
    have hf2 : (db.categories ++ [row1]).find? (fun r => r.category_name == name)
        = some row1 := by
      rw [find?_append_none _ h, List.find?_cons_of_pos]
      simp [hrow1]
    have e2 : insert_category (insert_category db name l1 cnt1).2 name l2 cnt2 =
        (row1.id,
          { (insert_category db name l1 cnt1).2 with
            categories := (db.categories ++ [row1]).map (fun r =>
              if r.id = row1.id then
                { r with category_link := l2, agency_count := cnt2 }
              else r) }) := by
      rw [e1]
      unfold insert_category
      rw [hf2]
    refine ⟨by rw [e2, e1], ?_, ?_⟩
    · rw [e2]
      have hmapfilter : ((db.categories).map (fun r =>
          if r.id = row1.id then
            { r with category_link := l2, agency_count := cnt2 }
          else r)).filter (fun r => r.category_name == name) = [] := by
        apply filter_none
        intro a ha
        rcases List.mem_map.mp ha with ⟨r0, hr0, rfl⟩
        by_cases hid : r0.id = row1.id <;> simp [hid] <;> simpa using hall r0 hr0
      simp only [List.map_append, List.filter_append, List.length_append, hmapfilter]
      simp [hrow1]
    · rw [e2]
      intro r hr hname
      simp only [List.map_append, List.mem_append] at hr
      rcases hr with hr | hr
      · exfalso
        rcases List.mem_map.mp hr with ⟨r0, hr0, rfl⟩
        have := hall r0 hr0
        by_cases hid : r0.id = row1.id
        · simp [hid] at hname; simp [hname] at this
        · simp [hid] at hname; simp [hname] at this
      · simp at hr
        rw [hr]
        simp [hrow1]
  · intro db cid cn an u1 g1 d1 i1 du1 lp1 u2 g2 d2 i2 du2 lp2 h
    have hall := find?_none_forall h
    set row1 : AgencyRow :=
      { id := db.next_agency_id, category_id := cid, category_name := cn,
        agency_name := an, agency_url := u1, agency_logo := g1,
        local_logo_path := lp1, agency_desc := d1, agency_idx := i1,
        agency_detail_url := du1, agency_detail_desc := none,
        detailed_scraped := false } with hrow1
    have e1 : insert_agency db cid cn an u1 g1 d1 i1 du1 lp1 =
        (db.next_agency_id,
          { db with agencies := db.agencies ++ [row1],
                    next_agency_id := db.next_agency_id + 1 }) := by
      unfold insert_agency
      rw [h]
    have hf2 : (db.agencies ++ [row1]).find?
        (fun r => r.category_id == cid && r.agency_name == an) = some row1 := by
      rw [find?_append_none _ h, List.find?_cons_of_pos]
      simp [hrow1]
    have e2 : insert_agency (insert_agency db cid cn an u1 g1 d1 i1 du1 lp1).2
        cid cn an u2 g2 d2 i2 du2 lp2 =
        (row1.id,
          { (insert_agency db cid cn an u1 g1 d1 i1 du1 lp1).2 with
            agencies := (db.agencies ++ [row1]).map (fun r =>
              if r.id = row1.id then
                { r with agency_url := u2, agency_logo := g2,
                         local_logo_path := lp2, agency_desc := d2,
                         agency_idx := i2, agency_detail_url := du2 }
              else r) }) := by
      rw [e1]
      unfold insert_agency
      rw [hf2]
    refine ⟨by rw [e2, e1], ?_, ?_⟩
    · rw [e2]
      have hmapfilter : ((db.agencies).map (fun r =>
          if r.id = row1.id then
            { r with agency_url := u2, agency_logo := g2,
                     local_logo_path := lp2, agency_desc := d2,
                     agency_idx := i2, agency_detail_url := du2 }
          else r)).filter (fun r => r.category_id == cid && r.agency_name == an) = [] := by
        apply filter_none
        intro a ha
        rcases List.mem_map.mp ha with ⟨r0, hr0, rfl⟩
        by_cases hid : r0.id = row1.id <;> simp [hid] <;> simpa using hall r0 hr0
      simp only [List.map_append, List.filter_append, List.length_append, hmapfilter]
      simp [hrow1]
    · rw [e2]
      intro r hr hcid hname
      simp only [List.map_append, List.mem_append] at hr
      rcases hr with hr | hr
      · exfalso
        rcases List.mem_map.mp hr with ⟨r0, hr0, rfl⟩
        have := hall r0 hr0
        by_cases hid : r0.id = row1.id
        · simp [hid] at hcid hname; simp [hcid, hname] at this
        · simp [hid] at hcid hname; simp [hcid, hname] at this
      · simp at hr
        rw [hr]
        simp [hrow1]

/-- Witness for C1: the double upsert on a fresh store, for a concrete
category name and a concrete agency key, leaves exactly one row each. -/
theorem c1_upsert_idempotence_witness :
    (emptyDB.categories.find? (fun r => r.category_name == "A") = none
      ∧ ((insert_category (insert_category emptyDB "A" "l1" "3").2 "A" "l2" "4").2.categories.filter
          (fun r => r.category_name == "A")).length = 1)
    ∧ (emptyDB.agencies.find?
        (fun r => r.category_id == 1 && r.agency_name == "a") = none
      ∧ ((insert_agency (insert_agency emptyDB 1 "c" "a" (some "u1") none none none none none).2
            1 "c" "a" (some "u2") none none none none none).2.agencies.filter
          (fun r => r.category_id == 1 && r.agency_name == "a")).length = 1) :=
  ⟨⟨by decide,
    (c1_upsert_idempotence.1 emptyDB "A" "l1" "3" "l2" "4" (by decide)).2.1⟩,
   ⟨by decide,
    (c1_upsert_idempotence.2 emptyDB 1 "c" "a" (some "u1") none none none none none
      (some "u2") none none none none none (by decide)).2.1⟩⟩

/-! ### Claim C2 -/

/-- C2: Resume correctness fails in the code.  In a store where category "A"
is scraped and "B" is not, `get_unscraped_categories` (which is never called
by `scrape_all`) would return only "B", the discovery pass leaves the
`scraped` flags intact, and yet the category list that `scrape_all` iterates
(calling `get_agencies_in_category`, hence a full listing traversal, on each
element) contains "A" as well as "B": the already-scraped category is
re-traversed. -/
theorem c2_resume_not_implemented :
    (get_unscraped_categories c2_db).map (fun r => r.category_name) = ["B"]
    ∧ ((scrape_all_selected c2_db
          [⟨"A", "la", "1"⟩, ⟨"B", "lb", "2"⟩] []).2.categories.map
            (fun r => (r.category_name, r.scraped)))
        = [("A", true), ("B", false)]
    ∧ ((scrape_all_selected c2_db
          [⟨"A", "la", "1"⟩, ⟨"B", "lb", "2"⟩] []).1.map
            (fun c => (c.1, c.2.name)))
        = [(1, "A"), (2, "B")] := by
  refine ⟨by decide, by decide, by decide⟩

/-! ### Claim C4 -/

/-- C4: idx and detail-URL derivation.  For the example href
`"/ab-1111?idx=42&x=1"` the derived idx is `"42"` and the detail URL is the
fixed template applied to `"42"`; for every href containing no `idx=`
parameter (and for a null href) both are null; and in general
`extract_agency_idx` returns the digits of the first `idx=<digits>`
occurrence: whenever the href splits as `a ++ "idx=" ++ ds ++ b` with `ds` a
non-empty maximal digit run and no `idx=<digits>` match starting inside
`a`, the extracted idx is exactly `ds`. -/
theorem c4_idx_and_detail_url :
    derive_idx_and_detail (some "/ab-1111?idx=42&x=1")
        = (some "42", some "https://www.i-boss.co.kr/ab-7554-42")
    ∧ (∀ href : String, hasIdxSub href.data = false →
        derive_idx_and_detail (some href) = (none, none))
    ∧ derive_idx_and_detail none = (none, none)
    ∧ (∀ a ds b : List Char, ds ≠ [] → ds.all isDigitChar = true →
        (∀ i, i < a.length →
          idxMatchAt ((a ++ 'i' :: 'd' :: 'x' :: '=' :: (ds ++ b)).drop i) = none) →
        b.takeWhile isDigitChar = [] →
        extract_agency_idx (some (String.mk (a ++ 'i' :: 'd' :: 'x' :: '=' :: (ds ++ b))))
          = some (String.mk ds)) := by
  refine ⟨by decide, ?_, by decide, ?_⟩
  · intro href h
    have hx : extract_agency_idx (some href) = none := by
      simp only [extract_agency_idx]
      by_cases hemp : href.data.isEmpty = true
      · rw [if_pos hemp]
      · rw [if_neg hemp, searchIdx_none_of_not_sub h]
        rfl
    simp [derive_idx_and_detail, hx]
  · intro a ds b hne hds hnm hb
    have hdata : (String.mk (a ++ 'i' :: 'd' :: 'x' :: '=' :: (ds ++ b))).data
        = a ++ 'i' :: 'd' :: 'x' :: '=' :: (ds ++ b) := rfl
    simp only [extract_agency_idx, hdata]
    have hemp : (a ++ 'i' :: 'd' :: 'x' :: '=' :: (ds ++ b)).isEmpty = false := by
      cases a <;> rfl
    rw [if_neg (by simp [hemp]), searchIdx_first_occurrence a ds b hne hds hnm hb]
    rfl

/-- Witness for C4: a concrete idx-free href derives nulls, and the concrete
split of "/ab-1111?idx=42&x=1" at its `idx=` occurrence extracts "42". -/
theorem c4_idx_and_detail_url_witness :
    (hasIdxSub "/ab-9".data = false
      ∧ derive_idx_and_detail (some "/ab-9") = (none, none))
    ∧ ("42".data ≠ [] ∧ "42".data.all isDigitChar = true
      ∧ "&x=1".data.takeWhile isDigitChar = []
      ∧ extract_agency_idx
          (some (String.mk ("/ab-1111?".data ++ 'i' :: 'd' :: 'x' :: '=' ::
            ("42".data ++ "&x=1".data))))
          = some (String.mk "42".data)) :=
  ⟨⟨by decide, c4_idx_and_detail_url.2.1 "/ab-9" (by decide)⟩,
   ⟨by decide, by decide, by decide,
    c4_idx_and_detail_url.2.2.2 "/ab-1111?".data "42".data "&x=1".data
      (by decide) (by decide) (by decide) (by decide)⟩⟩

/-! ### Claim C7 -/

/-- C7 counterexample: the claim says the end-time field is set exactly on
the transition of the status to 'completed' or to 'failed'.  But updating
the concrete running session to the terminal status 'failed' leaves
`session_end` null: `update_scraping_status` appends the
`session_end = CURRENT_TIMESTAMP` assignment only when the status argument
equals 'completed' (iboss_scraper.py lines 263-264). -/
theorem c7_counterexample :
    (update_scraping_status c7_db 11 1 none none none none none none
        (some "failed")).sessions.map (fun r => (r.status, r.session_end))
      = [(some "failed", none)] := by decide

/-- C7 (amended): the end-time field is null when the session is created and
is set exactly on updates whose status argument is 'completed'; a transition
to 'failed' (or any other update) leaves it unchanged. -/
theorem c7_session_end_amended :
    (∀ (db : DB) (now : Nat),
      (start_scraping_session db now).2.sessions
        = db.sessions ++ [({ id := db.next_session_id, session_start := now,
                             session_end := none, categories_total := 0,
                             categories_scraped := 0, agencies_total := 0,
                             agencies_scraped := 0, details_total := 0,
                             details_scraped := 0,
                             status := some "running" } : SessionRow)])
    ∧ (∀ (now : Nat) (ct cs agt ags dt ds : Option Nat) (status : Option String)
        (r : SessionRow),
        (update_session_row now ct cs agt ags dt ds status r).session_end
          = if status == some "completed" then some now else r.session_end) := by
  constructor
  · intro db now; rfl
  · intro now ct cs agt ags dt ds status r
    cases ct <;> cases cs <;> cases agt <;> cases ags <;> cases dt <;> cases ds <;>
      cases status <;>
      simp [update_session_row, apply_ite SessionRow.session_end]

/-! ### Claim C10 -/

/-- C10 counterexample: the claim says only session fields with non-None
arguments are written.  But a call whose counter arguments are all None and
whose status argument is 'completed' writes `session_end` — a field that has
no corresponding argument at all — changing it from null to the current
time. -/
theorem c10_counterexample :
    ((start_scraping_session emptyDB 10).2.sessions.map (fun r => r.session_end)
        = [none])
    ∧ ((update_scraping_status (start_scraping_session emptyDB 10).2 11 1
        none none none none none none (some "completed")).sessions.map
        (fun r => r.session_end) = [some 11]) :=
  ⟨by decide, by decide⟩

/-- C10 (amended): frame property of `update_scraping_status`.  Every
parametrized session field whose argument is None keeps its old value and
every parametrized field with a non-None argument takes the argument's
value; `id` and `session_start` are never written; `session_end` is
additionally written (to the current time) exactly when the status argument
is 'completed'; a call in which every argument is None performs no database
update at all; and rows of other sessions are never touched. -/
theorem c10_status_update_frame :
    (∀ (now : Nat) (ct cs agt ags dt ds : Option Nat) (status : Option String)
        (r : SessionRow),
      (update_session_row now ct cs agt ags dt ds status r).id = r.id
      ∧ (update_session_row now ct cs agt ags dt ds status r).session_start
          = r.session_start
      ∧ (update_session_row now ct cs agt ags dt ds status r).categories_total
          = ct.getD r.categories_total
      ∧ (update_session_row now ct cs agt ags dt ds status r).categories_scraped
          = cs.getD r.categories_scraped
      ∧ (update_session_row now ct cs agt ags dt ds status r).agencies_total
          = agt.getD r.agencies_total
      ∧ (update_session_row now ct cs agt ags dt ds status r).agencies_scraped
          = ags.getD r.agencies_scraped
      ∧ (update_session_row now ct cs agt ags dt ds status r).details_total
          = dt.getD r.details_total
      ∧ (update_session_row now ct cs agt ags dt ds status r).details_scraped
          = ds.getD r.details_scraped
      ∧ (update_session_row now ct cs agt ags dt ds status r).status
          = (if status.isSome then status else r.status)
      ∧ (update_session_row now ct cs agt ags dt ds status r).session_end
          = (if status == some "completed" then some now else r.session_end))
    ∧ (∀ (db : DB) (now sid : Nat),
        update_scraping_status db now sid none none none none none none none = db)
    ∧ (∀ (db : DB) (now sid : Nat) (ct cs agt ags dt ds : Option Nat)
        (status : Option String) (r : SessionRow), r ∈ db.sessions → r.id ≠ sid →
        r ∈ (update_scraping_status db now sid ct cs agt ags dt ds status).sessions) := by
  refine ⟨?_, ?_, ?_⟩
  · intro now ct cs agt ags dt ds status r
    cases ct <;> cases cs <;> cases agt <;> cases ags <;> cases dt <;> cases ds <;>
      cases status <;>
      simp [update_session_row, apply_ite SessionRow.id,
        apply_ite SessionRow.session_start, apply_ite SessionRow.categories_total,
        apply_ite SessionRow.categories_scraped, apply_ite SessionRow.agencies_total,
        apply_ite SessionRow.agencies_scraped, apply_ite SessionRow.details_total,
        apply_ite SessionRow.details_scraped, apply_ite SessionRow.status,
        apply_ite SessionRow.session_end]
  · intro db now sid; rfl
  · intro db now sid ct cs agt ags dt ds status r hr hne
    unfold update_scraping_status
    by_cases hc : (ct.isSome || cs.isSome || agt.isSome || ags.isSome || dt.isSome ||
        ds.isSome || status.isSome) = true
    · rw [if_pos hc]
      exact List.mem_map.mpr ⟨r, hr, by simp [hne]⟩
    · rw [if_neg hc]
      exact hr

/-- Witness for C10 (amended): in the two-session store, updating session 2
to 'completed' leaves session 1's row untouched and still present. -/
theorem c10_status_update_frame_witness :
    ((⟨1, 10, none, 0, 0, 0, 0, 0, 0, some "running"⟩ : SessionRow) ∈ c10_db.sessions
      ∧ (1 : Nat) ≠ 2)
    ∧ (⟨1, 10, none, 0, 0, 0, 0, 0, 0, some "running"⟩ : SessionRow) ∈
        (update_scraping_status c10_db 30 2 none none none none none none
          (some "completed")).sessions :=
  ⟨⟨by decide, by decide⟩,
   c10_status_update_frame.2.2 c10_db 30 2 none none none none none none
     (some "completed") ⟨1, 10, none, 0, 0, 0, 0, 0, 0, some "running"⟩
     (by decide) (by decide)⟩

/-! ### Claim C8 -/

/-- C8 counterexample: the claim says that for every extracted field,
including the name, an entry whose selector fallbacks all fail is still
persisted with a sentinel value.  But an entry whose name chain failed while
every other field is present is skipped outright (`continue` at
iboss_scraper.py line 571): nothing is persisted and no id is returned. -/
theorem c8_missing_name_skips :
    process_entry emptyDB 1 "cat"
        ⟨none, some "/x?idx=3", some "http://u", some (some "http://logo"), some "d", none⟩
      = (none, emptyDB) := by decide

/-- C8 (amended): for every field except the name, a failed fallback chain
degrades to a sentinel ("N/A") or null and the entry is still persisted —
the persisted row carries `some "N/A"` for a missing external URL, logo URL
or short description, and nulls for a missing idx / detail URL; but when
every name fallback fails the entry is abandoned and nothing is
persisted. -/
theorem c8_sentinel_amended :
    (∀ (db : DB) (cid : Nat) (cn : String) (e : Entry) (nm : String),
      e.name = some nm →
      db.agencies.find? (fun r => r.category_id == cid && r.agency_name == nm) = none →
      process_entry db cid cn e
        = (some db.next_agency_id,
           { db with
             agencies := db.agencies ++
               [({ id := db.next_agency_id, category_id := cid, category_name := cn,
                   agency_name := nm, agency_url := some (e.url.getD "N/A"),
                   agency_logo := listing_logo_url e,
                   local_logo_path := listing_local_logo_path e,
                   agency_desc := some (e.desc.getD "N/A"),
                   agency_idx := (derive_idx_and_detail e.href).1,
                   agency_detail_url := (derive_idx_and_detail e.href).2,
                   agency_detail_desc := none,
                   detailed_scraped := false } : AgencyRow)],
             next_agency_id := db.next_agency_id + 1 }))
    ∧ (∀ (db : DB) (cid : Nat) (cn : String) (e : Entry),
        e.name = none → process_entry db cid cn e = (none, db)) := by
  constructor
  · intro db cid cn e nm hnm hfr
    simp only [process_entry, hnm]
    unfold insert_agency
    rw [hfr]
  · intro db cid cn e hnm
    simp only [process_entry, hnm]

/-- Witness for C8 (amended): an entry with a name but every other chain
failed is persisted with sentinel "N/A" URLs and description and null
idx/detail-URL/logo-path. -/
theorem c8_sentinel_amended_witness :
    ((⟨some "a", none, none, none, none, none⟩ : Entry).name = some "a"
      ∧ emptyDB.agencies.find?
          (fun r => r.category_id == 1 && r.agency_name == "a") = none)
    ∧ (process_entry emptyDB 1 "cat" ⟨some "a", none, none, none, none, none⟩).2.agencies
        = [({ id := 1, category_id := 1, category_name := "cat", agency_name := "a",
              agency_url := some "N/A", agency_logo := some "N/A",
              local_logo_path := none, agency_desc := some "N/A", agency_idx := none,
              agency_detail_url := none, agency_detail_desc := none,
              detailed_scraped := false } : AgencyRow)] :=
  ⟨⟨rfl, by decide⟩, by
    rw [c8_sentinel_amended.1 emptyDB 1 "cat" ⟨some "a", none, none, none, none, none⟩
      "a" rfl (by decide)]
    decide⟩

/-! ### Claim C9 -/

/-- C9: Detail fallback.  On a detail page where no primary content selector
matched (`intro = none`) but the body has text `t`, the fetched description
equals the whitespace-normalized truncation of the full-page text to the
fixed 1000-character budget (the code truncates in the page script, then
normalizes, iboss_scraper.py lines 915-926), its length is within the
budget, the store is updated through `update_agency_detail`, and the
agency's row ends with `detailed_scraped = true` and that description. -/
theorem c9_detail_fallback (db : DB) (aid : Nat) (url t : String)
    (h : t.isEmpty = false) :
    (get_agency_detail_model db aid (some url) true none (some t)).2
        = some (normalize_ws (String.mk (t.data.take 1000)))
    ∧ (get_agency_detail_model db aid (some url) true none (some t)).1
        = update_agency_detail db aid
            (some (normalize_ws (String.mk (t.data.take 1000))))
    ∧ (normalize_ws (String.mk (t.data.take 1000))).data.length ≤ 1000
    ∧ ∀ r ∈ (get_agency_detail_model db aid (some url) true none (some t)).1.agencies,
        r.id = aid → r.detailed_scraped = true
          ∧ r.agency_detail_desc = some (normalize_ws (String.mk (t.data.take 1000))) := by
  have hdesc : get_agency_detail_desc none (some t)
      = some (normalize_ws (String.mk (t.data.take 1000))) := by
    simp only [get_agency_detail_desc, body_text_fallback]
    rw [if_neg (by simp [h])]
  have hmodel : get_agency_detail_model db aid (some url) true none (some t)
      = (update_agency_detail db aid
          (some (normalize_ws (String.mk (t.data.take 1000)))),
         some (normalize_ws (String.mk (t.data.take 1000)))) := by
    simp only [get_agency_detail_model, hdesc]
    rfl
  refine ⟨by rw [hmodel], by rw [hmodel], ?_, ?_⟩
  · calc (normalize_ws (String.mk (t.data.take 1000))).data.length
        ≤ (String.mk (t.data.take 1000)).data.length := normalize_ws_length_le _
      _ = (t.data.take 1000).length := rfl
      _ ≤ 1000 := by rw [List.length_take]; exact Nat.min_le_left _ _
  · rw [hmodel]
    intro r hr hid
    unfold update_agency_detail at hr
    simp only at hr
    rcases List.mem_map.mp hr with ⟨r0, hr0, rfl⟩
    by_cases h0 : r0.id = aid
    · simp [h0]
    · simp [h0] at hid

/-- Witness for C9: a concrete page body with internal whitespace runs is
persisted as its normalized form. -/
theorem c9_detail_fallback_witness :
    ("x  y".isEmpty = false)
    ∧ (get_agency_detail_model emptyDB 7 (some "u") true none (some "x  y")).2
        = some "x y" := by
  refine ⟨by decide, ?_⟩
  rw [(c9_detail_fallback emptyDB 7 "u" "x  y" (by decide)).1]
  decide

/-! ### Claim C5 -/

/-- C5 counterexample: the claim says a category whose traversal is cut
short by a navigation or pagination fault is not marked scraped.  Concretely:
navigation fails (`navOk = false`, its result being discarded at
iboss_scraper.py line 507), the single page load yields no entries and the
pagination block raises an exception — which is caught at lines 848-852,
merely ending the loop — and the category is nevertheless marked scraped. -/
theorem c5_counterexample :
    ((get_agencies_in_category_model (insert_category emptyDB "A" "l" "1").2 false 1 "A" 0
        [.page [] .pagError]).1.categories.map (fun r => (r.id, r.scraped)))
      = [(1, true)] := by decide

/-- C5 (amended): after `get_agencies_in_category`, the category's scraped
flag is true exactly when no exception escaped to the function's outer
handler during the traversal.  Caught pagination errors and ignored
navigation failures end the page loop normally and do not prevent the
marking; only an uncaught (fatal) fault skips it. -/
theorem c5_scraped_flag_amended (db : DB) (navOk : Bool) (cid : Nat) (cn : String)
    (maxA : Nat) (loads : List PageLoad)
    (h : ∀ r ∈ db.categories, r.id = cid → r.scraped = false) :
    ∀ r ∈ (get_agencies_in_category_model db navOk cid cn maxA loads).1.categories,
      r.id = cid →
        r.scraped = !(run_category cid cn maxA loads db 0).fatal := by
  simp only [get_agencies_in_category_model]
  by_cases hf : (run_category cid cn maxA loads db 0).fatal = true
  · rw [if_pos hf, hf]
    rw [run_category_categories]
    intro r hr hid
    simp [h r hr hid]
  · rw [if_neg hf]
    rw [Bool.not_eq_true] at hf
    rw [hf]
    unfold mark_category_scraped
    simp only []
    intro r hr hid
    rw [run_category_categories] at hr
    rcases List.mem_map.mp hr with ⟨r0, hr0, rfl⟩
    by_cases h0 : r0.id = cid
    · simp [h0]
    · simp [h0] at hid

/-- Witness for C5 (amended): the concrete pagination-fault traversal marks
the category, matching the no-fatal-fault characterization. -/
theorem c5_scraped_flag_amended_witness :
    (∀ r ∈ (insert_category emptyDB "A" "l" "1").2.categories,
        r.id = 1 → r.scraped = false)
    ∧ ∀ r ∈ (get_agencies_in_category_model (insert_category emptyDB "A" "l" "1").2
          false 1 "A" 0 [.page [] .pagError]).1.categories,
        r.id = 1 →
          r.scraped = !(run_category 1 "A" 0 [.page [] .pagError]
            (insert_category emptyDB "A" "l" "1").2 0).fatal :=
  ⟨by decide,
   c5_scraped_flag_amended (insert_category emptyDB "A" "l" "1").2 false 1 "A" 0
     [.page [] .pagError] (by decide)⟩

/-! ### Claim C6 -/

/-- C6: Detail invariant.  In every store state reachable by the scraper's
mutations from a fresh database, an agency row with `detailed_scraped =
true` has a non-null long-form description: `update_agency_detail` (the only
operation setting the flag) sets the description in the same UPDATE, and its
only call site — the detail fetcher — always passes a non-null text. -/
theorem c6_detail_invariant : ∀ db : DB, Reach db → detailInv db := by
  intro db h
  unfold Reach at h
  induction h with
  | refl => intro r hr _; exact absurd hr (List.not_mem_nil r)
  | tail hsteps hstep ih => exact dbstep_detailInv hstep ih

/-- Witness for C6: a concrete reachable store — one inserted agency whose
detail fetch succeeded — satisfies the invariant. -/
theorem c6_detail_invariant_witness :
    detailInv (get_agency_detail_model
      (insert_agency emptyDB 1 "c" "a" none none none none none none).2
      1 (some "u") true (some "long description") none).1 :=
  c6_detail_invariant _
    (Relation.ReflTransGen.tail
      (Relation.ReflTransGen.tail Relation.ReflTransGen.refl
        (DBStep.insertAgency emptyDB 1 "c" "a" none none none none none none))
      (DBStep.agencyDetailFetch _ 1 (some "u") true (some "long description") none))

/-! ### Claim C3 -/

/-- C3: Cap enforcement.  For a per-category cap `N > 0` and a listing of
`M = totalEntries pages` available (extractable, pairwise-distinct, not yet
stored) entries, the traversal persists exactly `min N M` agencies — both as
the number of upsert calls (the returned `agencies_data`) and as the number
of agency rows for the category — and visits exactly the pages needed for
the cap: once the collected count reaches `N` mid-page, the remaining
entries of that page are skipped and no further page advance occurs
(`cap_pages_expected`).  A cap of `0` means unlimited: every entry is
persisted and every page visited. -/
theorem c3_cap_enforcement (db : DB) (cid : Nat) (cn : String) (N : Nat)
    (pages : List (List Entry)) (hN : 0 < N)
    (hnamed : ∀ p ∈ pages, ∀ e ∈ p, e.name.isSome = true)
    (hnodup : (pagesNames pages).Nodup)
    (hfresh : ∀ nm ∈ pagesNames pages, agFresh db cid nm) :
    (run_category cid cn N (pagesOf pages) db 0).ids.length
        = min N (totalEntries pages)
    ∧ countAg (run_category cid cn N (pagesOf pages) db 0).db cid
        = countAg db cid + min N (totalEntries pages)
    ∧ (run_category cid cn N (pagesOf pages) db 0).pagesVisited
        = cap_pages_expected N pages
    ∧ (run_category cid cn 0 (pagesOf pages) db 0).ids.length = totalEntries pages
    ∧ countAg (run_category cid cn 0 (pagesOf pages) db 0).db cid
        = countAg db cid + totalEntries pages
    ∧ (run_category cid cn 0 (pagesOf pages) db 0).pagesVisited = pages.length := by
  have h1 := run_category_cap cid cn N pages db 0 hN hN hnamed
  have h2 := run_category_nocap cid cn pages db 0 hnamed
  have h3 := run_category_rows cid cn N pages db 0 hnamed hnodup hfresh
  have h4 := run_category_rows cid cn 0 pages db 0 hnamed hnodup hfresh
  rw [Nat.sub_zero] at h1
  refine ⟨h1.2.1, ?_, h1.2.2.1, h2.2.1, ?_, h2.2.2.1⟩
  · rw [h3.1, h1.2.1]
  · rw [h4.1, h2.2.1]

/-- Witness for C3: two pages holding three distinct entries under a cap of
two persist exactly two agencies, visiting only the first page. -/
theorem c3_cap_enforcement_witness :
    ((0 : Nat) < 2
      ∧ (∀ p ∈ c3_pages, ∀ e ∈ p, e.name.isSome = true)
      ∧ (pagesNames c3_pages).Nodup
      ∧ (∀ nm ∈ pagesNames c3_pages, agFresh emptyDB 1 nm))
    ∧ (run_category 1 "cat" 2 (pagesOf c3_pages) emptyDB 0).ids.length
        = min 2 (totalEntries c3_pages)
    ∧ countAg (run_category 1 "cat" 2 (pagesOf c3_pages) emptyDB 0).db 1
        = countAg emptyDB 1 + min 2 (totalEntries c3_pages)
    ∧ (run_category 1 "cat" 2 (pagesOf c3_pages) emptyDB 0).pagesVisited
        = cap_pages_expected 2 c3_pages :=
  ⟨⟨by decide, by decide, by decide,
    fun nm _ r hr => absurd hr (List.not_mem_nil r)⟩,
   (c3_cap_enforcement emptyDB 1 "cat" 2 c3_pages (by decide) (by decide)
     (by decide) (fun nm _ r hr => absurd hr (List.not_mem_nil r))).1,
   (c3_cap_enforcement emptyDB 1 "cat" 2 c3_pages (by decide) (by decide)
     (by decide) (fun nm _ r hr => absurd hr (List.not_mem_nil r))).2.1,
   (c3_cap_enforcement emptyDB 1 "cat" 2 c3_pages (by decide) (by decide)
     (by decide) (fun nm _ r hr => absurd hr (List.not_mem_nil r))).2.2.1⟩

end IBoss
